import Mathlib

/-!
Verification of the mybible-get module manager (src/mybible_get.py) against
its natural-language specification.  The Python source is shallowly embedded:
pure string manipulation is translated to executable functions on `List Char`
(Lean `String` wraps `List Char`, so evaluation by `decide`/`rfl` works),
SQLite tables become Lean lists of rows, the two databases become explicit
state records, and the external world (network, zip archives, filesystem
faults, clock) is an oracle record threaded through the orchestrator
functions.  Machine-level caveats noted per definition.
-/

namespace MyBibleGet

/-! ## String primitives

These model the Python / SQLite string operations used by the source.
Case folding is modelled as ASCII folding (`Char.toLower` only maps A-Z),
matching SQLite's `LOWER`/`LIKE` behaviour on the ASCII module names the
tool manipulates.
-/

/-- ASCII lowercase of a character list (Python `str.lower()` /
SQLite `LOWER` as used on ASCII module names). -/
def lowerL (l : List Char) : List Char := l.map Char.toLower

/-- ASCII lowercase of a string. -/
def lowerS (s : String) : String := ⟨lowerL s.data⟩

/-- Case-insensitive string equality: model of peewee `.ilike(name)` lookups
with a literal pattern (no `%`/`_` wildcards appear in the queried names). -/
def ciEq (a b : String) : Bool := lowerL a.data = lowerL b.data

/-- Byte-wise strict order on characters (SQLite BINARY collation /
Python `str` comparison, which agree on code points). -/
def charLt (a b : Char) : Bool := a.toNat < b.toNat

/-- Lexicographic strict order on character lists. -/
def strLtL : List Char → List Char → Bool
  | [], [] => false
  | [], _ :: _ => true
  | _ :: _, [] => false
  | a :: as, b :: bs => charLt a b || (a = b && strLtL as bs)

/-- Lexicographic strict order on strings: the opaque `update_date`
comparison used by the source (`>`/`<=` on Python strings, `ORDER BY` in
SQLite). -/
def strLt (a b : String) : Bool := strLtL a.data b.data

/-- Lexicographic `<=` on strings, as Python evaluates `a <= b`. -/
def strLe (a b : String) : Bool := strLt a b || a = b

/-- Whether `suf` is a suffix of `l` (Python `str.endswith`). -/
def endsWithL (l suf : List Char) : Bool := suf.isSuffixOf l

/-- Python `str.removesuffix`: strip `suf` from the end of `s` when present. -/
def removeSuffix (s suf : String) : String :=
  if endsWithL s.data suf.data then ⟨s.data.take (s.data.length - suf.data.length)⟩ else s

/-- Whether `sub` occurs as a contiguous substring of `hay`
(Python `sub in hay`). -/
def containsSub (hay sub : List Char) : Bool :=
  match hay with
  | [] => sub.isEmpty
  | c :: rest => sub.isPrefixOf (c :: rest) || containsSub rest sub

/-- Split a character list on a separator character
(Python `str.split(sep)` with a one-character separator). -/
def splitOnChar (sep : Char) : List Char → List (List Char)
  | [] => [[]]
  | c :: rest =>
    let r := splitOnChar sep rest
    if c = sep then [] :: r
    else
      match r with
      | h :: t => (c :: h) :: t
      | [] => [[c]]

/-- Last element of a split (Python `parts[-1]`, defaulting to the empty
list which never occurs since `splitOnChar` returns a nonempty list). -/
def lastPart (parts : List (List Char)) : List Char := parts.getLastD []

/-- Final `/`-separated segment of a URL (Python `url.split('/')[-1]`). -/
def lastSegment (s : String) : String := ⟨lastPart (splitOnChar '/' s.data)⟩

/-- Replace every occurrence of the literal `"%s"` by `rep`
(model of `path.replace("%s", file_part)` in the source; Python scans left
to right without overlap). -/
def replacePercentS (rep : List Char) : List Char → List Char
  | '%' :: 's' :: rest => rep ++ replacePercentS rep rest
  | c :: rest => c :: replacePercentS rep rest
  | [] => []

/-- Index of the first occurrence of a character (Python `str.find`,
returning `none` instead of `-1`). -/
def findChar (c : Char) : List Char → Option Nat
  | [] => none
  | d :: rest => if d = c then some 0 else (findChar c rest).map (· + 1)

/-- Python slice `l[a:b]` on a character list (clamping, empty when
`b <= a`). -/
def sliceL (l : List Char) (a b : Nat) : List Char := (l.drop a).take (b - a)

/-- Hex digit value, if any. -/
def hexVal (c : Char) : Option Nat :=
  if '0' ≤ c ∧ c ≤ '9' then some (c.toNat - '0'.toNat)
  else if 'a' ≤ c ∧ c ≤ 'f' then some (c.toNat - 'a'.toNat + 10)
  else if 'A' ≤ c ∧ c ≤ 'F' then some (c.toNat - 'A'.toNat + 10)
  else none

/-- UTF-8 bytes of one character. -/
def charUtf8 (c : Char) : List Nat :=
  let n := c.toNat
  if n < 0x80 then [n]
  else if n < 0x800 then [0xC0 + n / 64, 0x80 + n % 64]
  else if n < 0x10000 then [0xE0 + n / 4096, 0x80 + (n / 64) % 64, 0x80 + n % 64]
  else [0xF0 + n / 262144, 0x80 + (n / 4096) % 64, 0x80 + (n / 64) % 64, 0x80 + n % 64]

/-- Percent-decode into a byte sequence: a `%XX` hex escape yields the byte
`XX`, any other character contributes its UTF-8 bytes (model of the scanning
phase of `urllib.parse.unquote`). -/
def percentBytes : List Char → List Nat
  | '%' :: c1 :: c2 :: rest =>
    match hexVal c1, hexVal c2 with
    | some a, some b => (a * 16 + b) :: percentBytes rest
    | _, _ => charUtf8 '%' ++ percentBytes (c1 :: c2 :: rest)
  | c :: rest => charUtf8 c ++ percentBytes rest
  | [] => []

/-- Replacement character emitted for undecodable bytes. -/
def replChar : Char := Char.ofNat 0xFFFD

/-- Decode a UTF-8 byte sequence to characters, substituting the
replacement character for invalid bytes (model of Python's
`errors="replace"` decoding inside `urllib.parse.unquote`).  The fuel
argument (instantiated with the list length, an upper bound on the number
of produced characters) keeps the recursion structural so that the
function reduces inside the kernel. -/
def utf8DecodeF : Nat → List Nat → List Char
  | 0, _ => []
  | _, [] => []
  | fuel + 1, b :: bs =>
    if b < 0x80 then Char.ofNat b :: utf8DecodeF fuel bs
    else if 0xC2 ≤ b ∧ b ≤ 0xDF then
      match bs with
      | c1 :: rest =>
        if 0x80 ≤ c1 ∧ c1 ≤ 0xBF then
          Char.ofNat ((b - 0xC0) * 64 + (c1 - 0x80)) :: utf8DecodeF fuel rest
        else replChar :: utf8DecodeF fuel (c1 :: rest)
      | [] => [replChar]
    else if 0xE0 ≤ b ∧ b ≤ 0xEF then
      match bs with
      | c1 :: c2 :: rest =>
        if (0x80 ≤ c1 ∧ c1 ≤ 0xBF) ∧ (0x80 ≤ c2 ∧ c2 ≤ 0xBF) then
          Char.ofNat ((b - 0xE0) * 4096 + (c1 - 0x80) * 64 + (c2 - 0x80)) :: utf8DecodeF fuel rest
        else replChar :: utf8DecodeF fuel (c1 :: c2 :: rest)
      | _ => [replChar]
    else if 0xF0 ≤ b ∧ b ≤ 0xF4 then
      match bs with
      | c1 :: c2 :: c3 :: rest =>
        if (0x80 ≤ c1 ∧ c1 ≤ 0xBF) ∧ (0x80 ≤ c2 ∧ c2 ≤ 0xBF) ∧ (0x80 ≤ c3 ∧ c3 ≤ 0xBF) then
          Char.ofNat ((b - 0xF0) * 262144 + (c1 - 0x80) * 4096 + (c2 - 0x80) * 64 + (c3 - 0x80))
            :: utf8DecodeF fuel rest
        else replChar :: utf8DecodeF fuel (c1 :: c2 :: c3 :: rest)
      | _ => [replChar]
    else replChar :: utf8DecodeF fuel bs

/-- UTF-8 decoding with enough fuel for the whole input. -/
def utf8Decode (bs : List Nat) : List Char := utf8DecodeF bs.length bs

/-- Model of `urllib.parse.unquote`: percent-decode then UTF-8 decode. -/
def unquote (s : String) : String := ⟨utf8Decode (percentBytes s.data)⟩

/-- Python whitespace characters stripped by `str.strip()`. -/
def isPyWS (c : Char) : Bool :=
  c = ' ' ∨ c = '\t' ∨ c = '\n' ∨ c = '\r' ∨ c = Char.ofNat 0x0B ∨ c = Char.ofNat 0x0C

/-- Strip characters satisfying `p` from both ends of a list
(Python `str.strip(chars)`). -/
def stripBy (p : Char → Bool) (l : List Char) : List Char :=
  ((l.dropWhile p).reverse.dropWhile p).reverse

/-- `part.strip().strip('\x27\x22')` from `process_module_names`:
whitespace strip followed by quote strip. -/
def stripNamePart (s : String) : String :=
  ⟨stripBy (fun c => c = '\'' ∨ c = '"') (stripBy isPyWS s.data)⟩

/-- `process_module_names` (src lines 117-124): split every CLI argument on
commas, strip whitespace and quotes from each part, drop empty parts. -/
def process_module_names (names : List String) : List String :=
  match names with
  | [] => []
  | n :: rest =>
    (((splitOnChar ',' n.data).map (fun p => stripNamePart ⟨p⟩)).filter (fun p => p ≠ ""))
      ++ process_module_names rest

/-- Truthiness of an optional string (Python `if mod.get(k)` /
`if version`): present and nonempty. -/
def truthyOpt : Option String → Bool
  | none => false
  | some s => s ≠ ""

/-! ## Data model

Rows of the two SQLite databases (src lines 58-94).  Tables are modelled as
Lean lists of rows in insertion order (SQLite scan order for these
unindexed queries). -/

/-- A row of the `CachedModule` table (src lines 66-78).  Primary key is the
composite (name, update_date, download_url). -/
structure CachedRow where
  name : String
  language : Option String
  description : String
  update_date : String
  download_url : String
  file_name : String
  module_type : String
  size : Option String
  source_registry : String
deriving DecidableEq

/-- A row of the `InstalledModule` table (src lines 84-89); `install_date`
is kept as an opaque string. -/
structure InstalledModuleRow where
  name : String
  language : Option String
  description : String
  update_date : String
  install_date : String
deriving DecidableEq

/-- A row of the `InstalledFile` table (src lines 91-94).  The foreign key
to its owning module is modelled by the module's (unique) name. -/
structure InstalledFileRow where
  module : String
  file_name : String
  file_path : String
deriving DecidableEq

/-- The installed-inventory database: both tables. -/
structure InstalledDB where
  modules : List InstalledModuleRow
  files : List InstalledFileRow
deriving DecidableEq

/-! ## Module Cache Store operations -/

/-- Equality on the composite primary key of `CachedModule`. -/
def pkEq (a b : CachedRow) : Bool :=
  a.name = b.name ∧ a.update_date = b.update_date ∧ a.download_url = b.download_url

/-- Insert one row, ignoring a duplicate on the composite primary key
(model of SQLite `INSERT OR IGNORE`, src line 269 `on_conflict_ignore`). -/
def insertIgnore (tbl : List CachedRow) (r : CachedRow) : List CachedRow :=
  if tbl.any (fun x => pkEq x r) then tbl else tbl ++ [r]

/-- `CachedModule.insert_many(...).on_conflict_ignore()` (src line 269):
rows are inserted one at a time, each ignored on conflict. -/
def insert_many (tbl : List CachedRow) (rs : List CachedRow) : List CachedRow :=
  rs.foldl insertIgnore tbl

/-- Number of rows sharing the primary-key triple of `r`. -/
def countPk (tbl : List CachedRow) (r : CachedRow) : Nat :=
  (tbl.filter (fun x => pkEq x r)).length

/-- Cached rows whose name matches `name` case-insensitively
(`CachedModule.name.ilike(name)`). -/
def ciMatches (cache : List CachedRow) (name : String) : List CachedRow :=
  cache.filter (fun r => ciEq r.name name)

/-- First row attaining the maximal `update_date` (model of
`ORDER BY update_date DESC` + `get_or_none()`; on ties SQLite returns one
row with the maximal key and this model fixes the first in table order). -/
def maxByUpdateDate (rows : List CachedRow) : Option CachedRow :=
  rows.foldl
    (fun acc r =>
      match acc with
      | none => some r
      | some m => if strLt m.update_date r.update_date then some r else some m)
    none

/-- Latest cached version of a module name (src lines 393, 675, 683):
case-insensitive name match, maximal `update_date`. -/
def latest_cached (cache : List CachedRow) (name : String) : Option CachedRow :=
  maxByUpdateDate (ciMatches cache name)

/-! ## Catalog Parsers -/

/-- `module_type` derivation from a download URL (src lines 194-199 and
221-226): percent-decode the final path segment, strip a trailing `.zip`,
split on `.`, take the last component when more than one exists, else
`"bible"`. -/
def moduleTypeOf (download_url : String) : String :=
  let url_filename := lastSegment download_url
  let decoded_url_filename := unquote url_filename
  let url_without_zip := removeSuffix decoded_url_filename ".zip"
  let parts := splitOnChar '.' url_without_zip.data
  if parts.length > 1 then ⟨lastPart parts⟩ else "bible"

/-- One entry of a flat-JSON ("extra") catalog; `none` fields model absent
JSON keys (`k in mod` tests presence, src line 186). -/
structure ExtraEntry where
  download_url : Option String
  file_name : Option String
  description : Option String
  update_date : Option String
  language_code : Option String
deriving DecidableEq

/-- Whether an extra-catalog entry has all four required keys
(src line 186). -/
def extraValid (m : ExtraEntry) : Bool :=
  m.download_url.isSome && m.file_name.isSome && m.description.isSome && m.update_date.isSome

/-- Record produced for a single extra-catalog entry, or `none` when a
required key is missing (src lines 185-206). -/
def extraRec (registry_url : String) (m : ExtraEntry) : Option CachedRow :=
  match m.download_url, m.file_name, m.description, m.update_date with
  | some du, some fn, some de, some ud =>
    some
      { name := removeSuffix fn ".zip"
        language := m.language_code
        description := de
        update_date := ud
        download_url := du
        file_name := fn ++ ".zip"
        module_type := moduleTypeOf du
        size := none
        source_registry := registry_url }
  | _, _, _, _ => none

/-- `parse_extra_registry` (src lines 184-206): per-entry records, skipping
entries with missing keys, in catalog order. -/
def parse_extra_registry (mods : List ExtraEntry) (registry_url : String) : List CachedRow :=
  mods.filterMap (extraRec registry_url)

/-- One entry of an archive-style ("zipped registry") catalog.  `url` is
the list of URL templates (`mod.get('url', [])`). -/
structure ZipEntry where
  abr : Option String
  url : List String
  fil : Option String
  des : Option String
  upd : Option String
  lng : Option String
  siz : Option String
deriving DecidableEq

/-- Whether a zipped-registry entry passes all truthiness checks of the
parser (src lines 211 and 218). -/
def zipRequired (m : ZipEntry) : Bool :=
  truthyOpt m.abr && !m.url.isEmpty && truthyOpt m.des && truthyOpt m.upd

/-- Host-aliasName lookup: the hosts dict is built with later entries
overwriting earlier ones (src line 209), so look up from the end. -/
def hostsLookup (hosts : List (String × String)) (aliasName : String) : Option String :=
  (hosts.reverse.find? (fun h => h.1 = aliasName)).map (·.2)

/-- The record built for one resolving URL template of a zipped-registry
entry (src lines 228-233): `name` is the abbreviation, `file_name` the
`fil` field defaulting to the abbreviation, and the module type is derived
from the resolved download URL. -/
def zipRecOf (registry_url : String) (mod : ZipEntry) (download_url : String) : CachedRow :=
  { name := mod.abr.getD ""
    language := mod.lng
    description := mod.des.getD ""
    update_date := mod.upd.getD ""
    download_url := download_url
    file_name := mod.fil.getD (mod.abr.getD "")
    module_type := moduleTypeOf download_url
    size := mod.siz
    source_registry := registry_url }

/-- Processing of one URL template (src lines 213-233): locate the braces
(Python `str.find`; the template is skipped when either brace is absent),
slice out the alias and the remainder, resolve the alias against `hosts`
(an unresolved alias yields nothing), check `des`/`upd` truthiness, and
build the record around `host_path.replace("%s", file_part)`. -/
def zipTemplateRec (hosts : List (String × String)) (registry_url : String) (mod : ZipEntry)
    (url_template : String) : Option CachedRow :=
  match findChar '{' url_template.data, findChar '}' url_template.data with
  | some i, some j =>
    match hostsLookup hosts ⟨sliceL url_template.data (i + 1) j⟩ with
    | some path =>
      if truthyOpt mod.des ∧ truthyOpt mod.upd then
        some (zipRecOf registry_url mod
          ⟨replacePercentS (url_template.data.drop (j + 1)) path.data⟩)
      else none
    | none => none
  | _, _ => none

/-- Records produced for one zipped-registry entry (src lines 210-233):
entries with falsy `abr` or no URL are skipped outright; otherwise one
record per URL template that `zipTemplateRec` accepts. -/
def zipEntryRecs (hosts : List (String × String)) (registry_url : String) (mod : ZipEntry) :
    List CachedRow :=
  if truthyOpt mod.abr ∧ mod.url ≠ [] then
    mod.url.filterMap (zipTemplateRec hosts registry_url mod)
  else []

/-- `parse_zipped_registry` (src lines 208-233): concatenation of the
per-entry record lists, in catalog order. -/
def parse_zipped_registry (hosts : List (String × String)) (downloads : List ZipEntry)
    (registry_url : String) : List CachedRow :=
  match downloads with
  | [] => []
  | m :: rest => zipEntryRecs hosts registry_url m ++ parse_zipped_registry hosts rest registry_url

/-! ## Filename Reconciliation -/

/-- The fixed ordered token list of `_reconstruct_sqlite_name`
(src lines 509-513). -/
def module_types : List String :=
  ["commentaries", "cross-references", "crossreferences", "devotions",
   "dictionaries_lookup", "dictionaries-lookup", "dictionary",
   "plan", "referencedata", "subheadings"]

/-- `_reconstruct_sqlite_name` (src lines 501-525): a member whose
lowercased name does not end in `.sqlite3` is returned unchanged; otherwise
the first token `t` with `.t.` occurring (case-insensitively) in the member
name gives `<module>.<t>.SQLite3`, and with no token `<module>.SQLite3`. -/
def reconstruct_sqlite_name (original_filename module_name_from_json : String) : String :=
  if ¬ endsWithL (lowerL original_filename.data) ".sqlite3".data then original_filename
  else
    let lower_filename := lowerL original_filename.data
    match module_types.find?
        (fun t => containsSub lower_filename ('.' :: (lowerL t.data ++ ['.']))) with
    | some t => module_name_from_json ++ "." ++ t ++ ".SQLite3"
    | none => module_name_from_json ++ ".SQLite3"

/-- Full per-member naming rule of `install_single_module`
(src lines 563-571): reconciliation, then the hidden-file rule — when the
reconciled name still equals the member name and the member starts with a
dot, the module name is prefixed. -/
def targetName (original_filename clean_module_name : String) : String :=
  let t := reconstruct_sqlite_name original_filename clean_module_name
  if t = original_filename ∧ original_filename.data.head? = some '.' then
    clean_module_name ++ original_filename
  else t

/-! ## Orchestrator

The external world is an oracle: whether the archive is already in the
download cache, whether a download succeeds, the archive's member list,
and fault injection for `InstalledFile.create` and for on-disk deletion.
The filesystem is the list of existing paths. -/

/-- A zip archive member (name and directory flag). -/
structure ZipMember where
  filename : String
  isDir : Bool
deriving DecidableEq

/-- Oracle for the external collaborators of the orchestrator. -/
structure Env where
  /-- `zip_path.exists()` for a decoded archive file name (src line 542). -/
  zipCached : String → Bool
  /-- whether `requests.get` on a URL succeeds (src lines 543-551). -/
  downloadOk : String → Bool
  /-- member list of the archive with a decoded file name (src line 558). -/
  members : String → List ZipMember
  /-- fault injection: `InstalledFile.create` raises for this file name
  (src line 589). -/
  failFile : String → Bool
  /-- fault injection: deleting this path from disk raises `OSError`
  (src lines 633-634). -/
  failDelete : String → Bool
  /-- `datetime.now()` rendered as a string (src line 587). -/
  now : String

/-- How a call to `install_single_module` ends: normal `True`, normal
`False`, or a propagating exception (a raise inside the atomic block). -/
inductive Outcome where
  | ok
  | err
  | exn
deriving DecidableEq

/-- Decoded local archive file name for a cached module
(src lines 536-540). -/
def zipName (mod : CachedRow) : String :=
  let decoded := unquote (lastSegment mod.download_url)
  if endsWithL decoded.data ".zip".data then decoded else decoded ++ ".zip"

/-- Whether the archive can be obtained: already cached, or the download
succeeds (src lines 542-551). -/
def downloadAvailable (env : Env) (mod : CachedRow) : Bool :=
  env.zipCached (zipName mod) || env.downloadOk mod.download_url

/-- Module resolution of `install_single_module` (src lines 529-530):
case-insensitive name match; an exact `update_date` match when a truthy
version is given, else the latest. -/
def resolveModule (cache : List CachedRow) (name : String) (version : Option String) :
    Option CachedRow :=
  let rows := ciMatches cache name
  if truthyOpt version then (rows.filter (fun r => some r.update_date = version)).head?
  else maxByUpdateDate rows

/-- Add a path to the filesystem if absent. -/
def insertPath (fs : List String) (p : String) : List String :=
  if p ∈ fs then fs else fs ++ [p]

/-- Insert or update a key in the `final_files_to_db` dict (Python dicts
keep the first position of a key and overwrite its value). -/
def upsert (l : List (String × String)) (k v : String) : List (String × String) :=
  if l.any (fun p => p.1 = k) then l.map (fun p => if p.1 = k then (k, v) else p)
  else l ++ [(k, v)]

/-- Extraction of one archive member (src lines 558-584): skip directories,
extract under the original name, rename to the reconciled name when it
differs, record the (canonical name, path) pair. -/
def extractStep (module_path clean_module_name : String)
    (st : List String × List (String × String)) (member : ZipMember) :
    List String × List (String × String) :=
  if member.isDir then st
  else
    let fs := st.1
    let acc := st.2
    let orig := member.filename
    let target := targetName orig clean_module_name
    let extracted_path := module_path ++ "/" ++ orig
    let fs1 := insertPath fs extracted_path
    if target ≠ orig then
      let target_path := module_path ++ "/" ++ target
      let fs2 :=
        if extracted_path ∈ fs1 then insertPath (fs1.erase extracted_path) target_path else fs1
      (fs2, upsert acc target target_path)
    else (fs1, upsert acc target extracted_path)

/-- The whole extraction loop (src lines 558-584), returning the updated
filesystem and the `final_files_to_db` mapping. -/
def extractLoop (module_path clean_module_name : String) (members : List ZipMember)
    (fs : List String) : List String × List (String × String) :=
  members.foldl (extractStep module_path clean_module_name) (fs, [])

/-- The `final_files_to_db` mapping an install of `mod` would record
(derived from `extractLoop` on the archive's members). -/
def extractedFiles (env : Env) (module_path : String) (mod : CachedRow) (fs : List String) :
    List (String × String) :=
  (extractLoop module_path (removeSuffix mod.name ".zip") (env.members (zipName mod)) fs).2

/-- The `InstalledModule` row created by an install (src line 587). -/
def installedRowOf (env : Env) (mod : CachedRow) : InstalledModuleRow :=
  { name := mod.name
    language := mod.language
    description := mod.description
    update_date := mod.update_date
    install_date := env.now }

/-- Sequential `InstalledFile.create` calls inside the transaction
(src lines 588-589); an injected fault raises. -/
def createFiles (moduleName : String) (failFile : String → Bool) :
    List (String × String) → InstalledDB → Except Unit InstalledDB
  | [], db => .ok db
  | (fname, fpath) :: rest, db =>
    if failFile fname then .error ()
    else createFiles moduleName failFile rest
      { db with files := db.files ++ [⟨moduleName, fname, fpath⟩] }

/-- The `installed_db.atomic()` block of `install_single_module`
(src lines 586-589): `InstalledModule.create` (which raises on a duplicate
unique name) followed by the `InstalledFile.create` calls; any raise rolls
the transaction back to the incoming state. -/
def atomicCreate (db : InstalledDB) (modRow : InstalledModuleRow)
    (files : List (String × String)) (failFile : String → Bool) : Except Unit InstalledDB :=
  if db.modules.any (fun m => m.name = modRow.name) then .error ()
  else createFiles modRow.name failFile files { db with modules := db.modules ++ [modRow] }

/-- `install_single_module` (src lines 527-592) over the embedded state:
resolve the cached record, obtain the archive, extract and reconcile every
member, then atomically write the inventory rows.  `.err` models a normal
`return False`, `.exn` a raise escaping the function after the transaction
rolled back. -/
def install_single_module (env : Env) (cache : List CachedRow) (module_path : String)
    (db : InstalledDB) (fs : List String) (name : String) (version : Option String) :
    InstalledDB × List String × Outcome :=
  match resolveModule cache name version with
  | none => (db, fs, .err)
  | some mod =>
    if downloadAvailable env mod then
      let ex := extractLoop module_path (removeSuffix mod.name ".zip")
        (env.members (zipName mod)) fs
      match atomicCreate db (installedRowOf env mod) ex.2 env.failFile with
      | .ok db1 => (db1, ex.1, .ok)
      | .error _ => (db, ex.1, .exn)
    else (db, fs, .err)

/-! ## Remove -/

/-- First installed module matching a name case-insensitively
(`InstalledModule.get_or_none(InstalledModule.name.ilike(name))`). -/
def findInstalled (db : InstalledDB) (name : String) : Option InstalledModuleRow :=
  db.modules.find? (fun m => ciEq m.name name)

/-- The file rows owned by an installed module, in insertion order
(`installed.files`). -/
def ownedFiles (db : InstalledDB) (m : InstalledModuleRow) : List InstalledFileRow :=
  db.files.filter (fun f => f.module = m.name)

/-- The on-disk deletion loop of `remove_module` (src lines 629-637):
skip paths that do not exist; delete existing ones, aborting with `false`
on the first injected `OSError`.  `unlink` and `rmtree` are both modelled
as one fallible deletion. -/
def deleteFiles (env : Env) : List String → List String → List String × Bool
  | [], fs => (fs, true)
  | p :: rest, fs =>
    if p ∈ fs then
      if env.failDelete p then (fs, false)
      else deleteFiles env rest (fs.erase p)
    else deleteFiles env rest fs

/-- `remove_module` (src lines 621-640): not-installed reports `false`;
otherwise delete owned files from disk, aborting before any database
mutation on failure; on full success delete the module row with its file
rows (`delete_instance(recursive=True)`). -/
def remove_module (env : Env) (db : InstalledDB) (fs : List String) (name : String) :
    InstalledDB × List String × Bool :=
  match findInstalled db name with
  | none => (db, fs, false)
  | some installed =>
    let res := deleteFiles env ((ownedFiles db installed).map (·.file_path)) fs
    if res.2 then
      ({ modules := db.modules.filter (fun x => x.name ≠ installed.name)
         files := db.files.filter (fun f => f.module ≠ installed.name) },
       res.1, true)
    else (db, res.1, false)

/-! ## Upgrade -/

/-- Selection of the `upgrade --all` command (src lines 672-677): an
installed module is queued exactly when a latest cached record exists and
its `update_date` is strictly greater. -/
def toUpgradeAll (cache : List CachedRow) (installed : List InstalledModuleRow) :
    List String :=
  installed.filterMap (fun inst =>
    match latest_cached cache inst.name with
    | some latest =>
      if strLt inst.update_date latest.update_date then some inst.name else none
    | none => none)

/-- The ad hoc record shown by `list --upgradable` (src lines 402-403). -/
structure UpgradableMod where
  name : String
  update_date : String
  latest_date : String
  description : String
deriving DecidableEq

/-- The `list --upgradable` loop (src lines 386-404) with no language or
type filter: keep an installed module unless the latest cached record is
missing or its `update_date` is `<=` the installed one. -/
def upgradableList (cache : List CachedRow) (installed : List InstalledModuleRow) :
    List UpgradableMod :=
  installed.filterMap (fun inst =>
    match latest_cached cache inst.name with
    | some latest =>
      if strLe latest.update_date inst.update_date then none
      else some ⟨inst.name, inst.update_date, latest.update_date, inst.description⟩
    | none => none)

/-- One iteration of the upgrade loop body (src lines 689-694): Remove,
then Install only when Remove succeeded. -/
def upgradeStep (env : Env) (cache : List CachedRow) (module_path : String)
    (db : InstalledDB) (fs : List String) (name : String) :
    InstalledDB × List String × Outcome :=
  let r := remove_module env db fs name
  if r.2.2 then install_single_module env cache module_path r.1 r.2.1 name none
  else (r.1, r.2.1, .err)

/-- The upgrade loop over the queued names (src lines 689-694).  A normal
per-module failure moves on to the next name; a raise escaping
`install_single_module` would abort the command, so the loop stops there. -/
def upgradeLoop (env : Env) (cache : List CachedRow) (module_path : String) :
    List String → InstalledDB → List String → InstalledDB × List String × List Outcome
  | [], db, fs => (db, fs, [])
  | n :: rest, db, fs =>
    let s := upgradeStep env cache module_path db fs n
    match s.2.2 with
    | .exn => (s.1, s.2.1, [.exn])
    | out =>
      let r := upgradeLoop env cache module_path rest s.1 s.2.1
      (r.1, r.2.1, out :: r.2.2)

/-! ## Install command -/

/-- The per-name loop of the `install` command (src lines 606-619):
already-installed modules are skipped unless `--reinstall`, in which case
the old version is removed first and a failed removal skips the name. -/
def installLoop (env : Env) (cache : List CachedRow) (module_path : String)
    (version : Option String) (reinstall : Bool) :
    List String → InstalledDB → List String → InstalledDB × List String
  | [], db, fs => (db, fs)
  | n :: rest, db, fs =>
    match findInstalled db n with
    | some _ =>
      if reinstall then
        let r := remove_module env db fs n
        if r.2.2 then
          let s := install_single_module env cache module_path r.1 r.2.1 n version
          match s.2.2 with
          | .exn => (s.1, s.2.1)
          | _ => installLoop env cache module_path version reinstall rest s.1 s.2.1
        else installLoop env cache module_path version reinstall rest r.1 r.2.1
      else installLoop env cache module_path version reinstall rest db fs
    | none =>
      let s := install_single_module env cache module_path db fs n version
      match s.2.2 with
      | .exn => (s.1, s.2.1)
      | _ => installLoop env cache module_path version reinstall rest s.1 s.2.1

/-- The `install` command (src lines 599-619): a truthy `--version` with
more than one processed name aborts before the cache-empty check, any
lookup and the loop; an empty cache also aborts; otherwise the loop runs. -/
def installCommand (env : Env) (cache : List CachedRow) (module_path : String)
    (db : InstalledDB) (fs : List String) (names : List String) (version : Option String)
    (reinstall : Bool) : InstalledDB × List String :=
  if truthyOpt version = true ∧ (process_module_names names).length > 1 then (db, fs)
  else if cache = [] then (db, fs)
  else installLoop env cache module_path version reinstall (process_module_names names) db fs

/-! ## Concrete sample data used by the witness theorems -/

/-- A sample cached module row. -/
def mod0 : CachedRow :=
  { name := "Mod", language := none, description := "desc", update_date := "1"
    download_url := "http://x/Mod.zip", file_name := "Mod.zip", module_type := "bible"
    size := none, source_registry := "reg" }

/-- A one-row sample cache. -/
def cache0 : List CachedRow := [mod0]

/-- Sample oracle: archive cached, one plain member, `InstalledFile.create`
always faults, deletion never faults. -/
def env0 : Env :=
  { zipCached := fun _ => true, downloadOk := fun _ => false
    members := fun _ => [⟨"data.txt", false⟩], failFile := fun _ => true
    failDelete := fun _ => false, now := "T" }

/-- Sample oracle with no `InstalledFile.create` fault. -/
def env1 : Env := { env0 with failFile := fun _ => false }

/-- Sample oracle where deleting path `"p2"` faults. -/
def envDel : Env := { env0 with failFile := fun _ => false, failDelete := fun p => p = "p2" }

/-- A sample installed module row. -/
def imod0 : InstalledModuleRow :=
  { name := "Mod", language := none, description := "desc", update_date := "1"
    install_date := "T" }

/-- A sample inventory: one module owning two files. -/
def idb0 : InstalledDB := ⟨[imod0], [⟨"Mod", "f1", "p1"⟩, ⟨"Mod", "f2", "p2"⟩]⟩

/-- Three versions of one module, middle one latest. -/
def cache6 : List CachedRow :=
  [{ mod0 with name := "m", update_date := "2020-01-01", download_url := "u1" },
   { mod0 with name := "m", update_date := "2021-06-15", download_url := "u2" },
   { mod0 with name := "m", update_date := "2019-12-31", download_url := "u3" }]

/-- The installed row for the `cache6` module at the 2020 version. -/
def imod6 : InstalledModuleRow :=
  { name := "m", language := none, description := "desc", update_date := "2020-01-01"
    install_date := "T" }

/-- One-module installed list for the upgradability witness. -/
def inst6 : List InstalledModuleRow := [imod6]

/-- Hosts list for the parser samples: one alias. -/
def zcH : List (String × String) := [("h", "http://x/%s")]

/-- A zipped-registry entry with all required fields and one URL. -/
def zcValid (n : String) : ZipEntry :=
  ⟨some n, ["{h}" ++ n ++ ".zip"], none, some "d", some "2020", none, none⟩

/-- A zipped-registry entry missing its description (a required field). -/
def zcInvalid : ZipEntry := ⟨some "bad", ["{h}b.zip"], none, none, some "2020", none, none⟩

/-- A zipped-registry entry with all required fields and two resolvable
URL templates. -/
def zcDouble : ZipEntry :=
  ⟨some "dbl", ["{h}a.zip", "{h}b.zip"], none, some "d", some "2020", none, none⟩

/-- Ten entries, three of them missing required fields, one valid entry
carrying two URL templates. -/
def zcTen : List ZipEntry :=
  [zcValid "a", zcInvalid, zcValid "b", zcDouble, zcInvalid, zcValid "c",
   zcValid "d", zcInvalid, zcValid "e", zcValid "f"]

/-- Ten entries, three missing required fields, every valid entry with
exactly one URL template. -/
def zcTenSingle : List ZipEntry :=
  [zcValid "a", zcInvalid, zcValid "b", zcValid "g", zcInvalid, zcValid "c",
   zcValid "d", zcInvalid, zcValid "e", zcValid "f"]

/-- The scenario entry of the spec: kjv from host alias h1. -/
def kjvEntry : ZipEntry :=
  ⟨some "kjv", ["{h1}kjv.bible.zip"], none, some "King James", some "2020-01-01", none, none⟩

/-- The record the scenario must produce. -/
def kjvRec : CachedRow :=
  { name := "kjv", language := none, description := "King James"
    update_date := "2020-01-01", download_url := "http://x/kjv.bible.zip"
    file_name := "kjv", module_type := "bible", size := none, source_registry := "reg" }

/-! ## Lemmas about the lexicographic string order -/

theorem strLtL_irrefl (l : List Char) : strLtL l l = false := by
  induction l with
  | nil => rfl
  | cons c cs ih => simp [strLtL, charLt, ih]

theorem strLtL_trans : ∀ {a b c : List Char},
    strLtL a b = true → strLtL b c = true → strLtL a c = true
  | [], _ :: _, _ :: _, _, _ => rfl
  | [], [], _, h1, _ => by simp [strLtL] at h1
  | [], _ :: _, [], _, h2 => by simp [strLtL] at h2
  | _ :: _, [], _, h1, _ => by simp [strLtL] at h1
  | _ :: _, _ :: _, [], _, h2 => by simp [strLtL] at h2
  | x :: xs, y :: ys, z :: zs, h1, h2 => by
    simp only [strLtL, charLt, Bool.or_eq_true, Bool.and_eq_true, decide_eq_true_eq,
      Nat.decLt] at h1 h2 ⊢
    rcases h1 with h1 | ⟨rfl, h1⟩
    · rcases h2 with h2 | ⟨rfl, _⟩
      · exact Or.inl (Nat.lt_trans h1 h2)
      · exact Or.inl h1
    · rcases h2 with h2 | ⟨rfl, h2⟩
      · exact Or.inl h2
      · exact Or.inr ⟨rfl, strLtL_trans h1 h2⟩

theorem strLtL_asymm {a b : List Char} (h : strLtL a b = true) : strLtL b a = false := by
  by_contra hc
  have hba : strLtL b a = true := by
    cases hh : strLtL b a with
    | true => rfl
    | false => exact absurd hh hc
  have := strLtL_trans h hba
  rw [strLtL_irrefl] at this
  exact Bool.false_ne_true this

theorem strLtL_total : ∀ {a b : List Char},
    strLtL a b = false → strLtL b a = false → a = b
  | [], [], _, _ => rfl
  | [], _ :: _, h1, _ => by simp [strLtL] at h1
  | _ :: _, [], _, h2 => by simp [strLtL] at h2
  | x :: xs, y :: ys, h1, h2 => by
    simp only [strLtL, charLt, Bool.or_eq_false_iff, Bool.and_eq_false_iff,
      decide_eq_false_iff_not, Nat.not_lt] at h1 h2
    have hxy : x = y := by
      have : x.toNat = y.toNat := Nat.le_antisymm h2.1 h1.1
      exact Char.ext (UInt32.ext this)
    subst hxy
    rcases h1.2 with h1'' | h1''
    · exact absurd rfl h1''
    · rcases h2.2 with h2'' | h2''
      · exact absurd rfl h2''
      · exact congrArg (x :: ·) (strLtL_total h1'' h2'')

theorem strLt_irrefl (s : String) : strLt s s = false := strLtL_irrefl s.data

theorem strLt_asymm {a b : String} (h : strLt a b = true) : strLt b a = false :=
  strLtL_asymm h

theorem strLt_total {a b : String} (h1 : strLt a b = false) (h2 : strLt b a = false) :
    a = b := by
  cases a; cases b
  exact congrArg String.mk (strLtL_total h1 h2)

/-- `a <= b` is false exactly when `b < a` (totality of the opaque string
order). -/
theorem strLe_false_iff {a b : String} : strLe a b = false ↔ strLt b a = true := by
  constructor
  · intro h
    simp only [strLe, Bool.or_eq_false_iff, decide_eq_false_iff_not] at h
    cases hh : strLt b a with
    | true => rfl
    | false => exact absurd (strLt_total h.1 hh) h.2
  · intro h
    simp only [strLe, Bool.or_eq_false_iff, decide_eq_false_iff_not]
    refine ⟨strLt_asymm h, ?_⟩
    rintro rfl
    rw [strLt_irrefl] at h
    exact Bool.false_ne_true h

/-- From `a ≤ b` and `b ≤ c` (phrased as negated strict order), `a ≤ c`. -/
theorem strLt_le_trans {a b c : String} (h1 : strLt b a = false) (h2 : strLt c b = false) :
    strLt c a = false := by
  cases hca : strLt c a with
  | false => rfl
  | true =>
    cases hab : strLt a b with
    | true =>
      have h3 := strLtL_trans hca hab
      rw [show strLtL c.data b.data = strLt c b from rfl, h2] at h3
      exact absurd h3 Bool.false_ne_true
    | false =>
      have hab' : a = b := strLt_total hab h1
      subst hab'
      rw [hca] at h2
      exact absurd h2 (fun hh => Bool.false_ne_true hh.symm)

/-! ## Lemmas about latest-version resolution -/

/-- The fold step of `maxByUpdateDate`. -/
theorem maxByUpdateDate_eq_foldl (rows : List CachedRow) :
    maxByUpdateDate rows =
      rows.foldl
        (fun acc r =>
          match acc with
          | none => some r
          | some m => if strLt m.update_date r.update_date then some r else some m)
        none := rfl

theorem maxFold_spec : ∀ (rows : List CachedRow) (a : CachedRow),
    ∃ m, rows.foldl
        (fun acc r =>
          match acc with
          | none => some r
          | some m => if strLt m.update_date r.update_date then some r else some m)
        (some a) = some m ∧
      (m = a ∨ m ∈ rows) ∧ strLt m.update_date a.update_date = false ∧
      ∀ r ∈ rows, strLt m.update_date r.update_date = false
  | [], a => ⟨a, rfl, Or.inl rfl, strLt_irrefl _, by simp⟩
  | r :: rows, a => by
    simp only [List.foldl_cons]
    by_cases h : strLt a.update_date r.update_date = true
    · rw [if_pos h]
      obtain ⟨m, hm, hmem, hle, hall⟩ := maxFold_spec rows r
      refine ⟨m, hm, ?_, ?_, ?_⟩
      · rcases hmem with rfl | hmem
        · exact Or.inr (List.mem_cons_self _ _)
        · exact Or.inr (List.mem_cons_of_mem _ hmem)
      · exact strLt_le_trans (strLt_asymm h) hle
      · intro x hx
        rcases List.mem_cons.mp hx with rfl | hx
        · exact hle
        · exact hall x hx
    · rw [if_neg h]
      have h' : strLt a.update_date r.update_date = false := by
        cases hh : strLt a.update_date r.update_date with
        | false => rfl
        | true => exact absurd hh h
      obtain ⟨m, hm, hmem, hle, hall⟩ := maxFold_spec rows a
      refine ⟨m, hm, ?_, hle, ?_⟩
      · rcases hmem with rfl | hmem
        · exact Or.inl rfl
        · exact Or.inr (List.mem_cons_of_mem _ hmem)
      · intro x hx
        rcases List.mem_cons.mp hx with rfl | hx
        · exact strLt_le_trans h' hle
        · exact hall x hx

/-- `maxByUpdateDate` of a nonempty list returns a member no other member
strictly exceeds. -/
theorem maxByUpdateDate_spec {rows : List CachedRow} {m : CachedRow}
    (h : maxByUpdateDate rows = some m) :
    m ∈ rows ∧ ∀ r ∈ rows, strLt m.update_date r.update_date = false := by
  cases rows with
  | nil => simp [maxByUpdateDate] at h
  | cons r rows =>
    rw [maxByUpdateDate_eq_foldl, List.foldl_cons] at h
    obtain ⟨m', hm', hmem, hle, hall⟩ := maxFold_spec rows r
    rw [hm'] at h
    obtain rfl : m' = m := Option.some.inj h
    refine ⟨?_, ?_⟩
    · rcases hmem with rfl | hmem
      · exact List.mem_cons_self _ _
      · exact List.mem_cons_of_mem _ hmem
    · intro x hx
      rcases List.mem_cons.mp hx with rfl | hx
      · exact hle
      · exact hall x hx

/-- `latest_cached` returns a case-insensitive match that no other
case-insensitive match strictly exceeds. -/
theorem latest_cached_spec {cache : List CachedRow} {name : String} {m : CachedRow}
    (h : latest_cached cache name = some m) :
    m ∈ ciMatches cache name ∧
      ∀ r ∈ ciMatches cache name, strLt m.update_date r.update_date = false :=
  maxByUpdateDate_spec h

/-! ## Lemmas about the inventory transaction loops -/

theorem createFiles_ok (nm : String) (ff : String → Bool) :
    ∀ (files : List (String × String)) (db : InstalledDB),
      (∀ p ∈ files, ff p.1 = false) →
      createFiles nm ff files db =
        .ok { db with files := db.files ++ files.map (fun p => ⟨nm, p.1, p.2⟩) }
  | [], db, _ => by simp [createFiles]
  | (fname, fpath) :: rest, db, h => by
    have hf : ff fname = false := h (fname, fpath) (List.mem_cons_self _ _)
    simp only [createFiles, hf, Bool.false_eq_true, if_false]
    rw [createFiles_ok nm ff rest _ (fun p hp => h p (List.mem_cons_of_mem _ hp))]
    simp [List.append_assoc]

theorem createFiles_err (nm : String) (ff : String → Bool) :
    ∀ (files : List (String × String)) (db : InstalledDB),
      (∃ p ∈ files, ff p.1 = true) →
      createFiles nm ff files db = .error ()
  | [], _, h => by simp at h
  | (fname, fpath) :: rest, db, h => by
    by_cases hf : ff fname = true
    · simp [createFiles, hf]
    · have hf' : ff fname = false := by
        cases hh : ff fname with
        | false => rfl
        | true => exact absurd hh hf
      simp only [createFiles, hf', Bool.false_eq_true, if_false]
      apply createFiles_err
      obtain ⟨p, hp, hpt⟩ := h
      rcases List.mem_cons.mp hp with rfl | hp
      · exact absurd hpt hf
      · exact ⟨p, hp, hpt⟩

theorem deleteFiles_ok (env : Env) :
    ∀ (paths fs : List String),
      (∀ p ∈ paths, p ∈ fs → env.failDelete p = false) →
      (deleteFiles env paths fs).2 = true
  | [], _, _ => rfl
  | p :: rest, fs, h => by
    by_cases hp : p ∈ fs
    · have hf : env.failDelete p = false := h p (List.mem_cons_self _ _) hp
      simp only [deleteFiles, if_pos hp, hf, Bool.false_eq_true, if_false]
      exact deleteFiles_ok env rest (fs.erase p)
        (fun q hq hqm => h q (List.mem_cons_of_mem _ hq) (List.mem_of_mem_erase hqm))
    · simp only [deleteFiles, if_neg hp]
      exact deleteFiles_ok env rest fs (fun q hq hqm => h q (List.mem_cons_of_mem _ hq) hqm)

/-- A `remove_module` call that reports failure leaves the database
untouched (both failure paths return the incoming `db`). -/
theorem remove_module_fail_db (env : Env) (db : InstalledDB) (fs : List String)
    (name : String) (h : (remove_module env db fs name).2.2 = false) :
    (remove_module env db fs name).1 = db := by
  cases hf : findInstalled db name with
  | none => simp [remove_module, hf]
  | some m =>
    simp only [remove_module, hf] at h ⊢
    by_cases hd : (deleteFiles env ((ownedFiles db m).map (·.file_path)) fs).2 = true
    · rw [if_pos hd] at h
      simp at h
    · rw [if_neg hd] at h ⊢

/-! ## C5: idempotent cache insertion -/

/-- C5: inserting the same (name, update_date, download_url) record into
the Module Cache Store twice yields exactly one stored row; the duplicate
is silently ignored (the second insert is a no-op), never raising or
creating a second row. -/
theorem cache_insert_idempotent (tbl : List CachedRow) (r : CachedRow)
    (h : countPk tbl r = 0) :
    countPk (insert_many tbl [r, r]) r = 1 ∧
      insert_many tbl [r, r] = insert_many tbl [r] := by
  have hfilter : tbl.filter (fun x => pkEq x r) = [] := List.length_eq_zero.mp h
  have hany : tbl.any (fun x => pkEq x r) = false := by
    rw [Bool.eq_false_iff]
    intro hc
    obtain ⟨x, hx, hpk⟩ := List.any_eq_true.mp hc
    have hx2 : x ∈ tbl.filter (fun x => pkEq x r) := List.mem_filter.mpr ⟨hx, hpk⟩
    rw [hfilter] at hx2
    exact absurd hx2 (List.not_mem_nil x)
  have hrr : pkEq r r = true := by simp [pkEq]
  have h1 : insertIgnore tbl r = tbl ++ [r] := by simp [insertIgnore, hany]
  have h2 : insertIgnore (tbl ++ [r]) r = tbl ++ [r] := by
    have ha : (tbl ++ [r]).any (fun x => pkEq x r) = true := by
      simp [List.any_append, hrr]
    simp [insertIgnore, ha]
  have e2 : insert_many tbl [r, r] = tbl ++ [r] := by
    show insertIgnore (insertIgnore tbl r) r = tbl ++ [r]
    rw [h1, h2]
  have e1 : insert_many tbl [r] = tbl ++ [r] := h1
  refine ⟨?_, by rw [e1, e2]⟩
  rw [e2]
  simp [countPk, List.filter_append, hfilter, hrr]

/-- Witness for C5 at a concrete row and the empty cache. -/
theorem cache_insert_idempotent_witness :
    countPk [] mod0 = 0 ∧ countPk (insert_many [] [mod0, mod0]) mod0 = 1 :=
  ⟨by decide, (cache_insert_idempotent [] mod0 (by decide)).1⟩

/-! ## C10: version pin rejected for batches -/

/-- C10: when a truthy `--version` is given and the processed name list has
more than one name, the `install` command returns with the inventory
database and the filesystem unchanged, for every cache, environment and
`--reinstall` flag — so no cache lookup, download, extraction or inventory
mutation can have taken place. -/
theorem install_version_batch_rejected (env : Env) (cache : List CachedRow)
    (module_path : String) (db : InstalledDB) (fs : List String) (names : List String)
    (version : Option String) (reinstall : Bool)
    (hver : truthyOpt version = true)
    (hlen : (process_module_names names).length > 1) :
    installCommand env cache module_path db fs names version reinstall = (db, fs) := by
  unfold installCommand
  rw [if_pos ⟨hver, hlen⟩]

/-- Witness for C10: two comma-separated names with a version pin. -/
theorem install_version_batch_rejected_witness :
    truthyOpt (some "1") = true ∧ (process_module_names ["a,b"]).length > 1 ∧
      installCommand env0 cache0 "/mp" idb0 [] ["a,b"] (some "1") false = (idb0, []) :=
  ⟨by decide, by decide,
    install_version_batch_rejected env0 cache0 "/mp" idb0 [] ["a,b"] (some "1") false
      (by decide) (by decide)⟩

/-! ## C2: remove preserves the inventory on filesystem failure -/

/-- C2: when an installed module is found and the on-disk deletion loop
over its owned files fails, `remove_module` returns failure with the
database untouched: the `InstalledModule` row and every one of its
`InstalledFile` rows (including rows for files already deleted in the
attempt) still exist. -/
theorem remove_preserves_inventory_on_failure (env : Env) (db : InstalledDB)
    (fs : List String) (name : String) (m : InstalledModuleRow) (fs1 : List String)
    (hfind : findInstalled db name = some m)
    (hfail : deleteFiles env ((ownedFiles db m).map (·.file_path)) fs = (fs1, false)) :
    remove_module env db fs name = (db, fs1, false) ∧
      m ∈ (remove_module env db fs name).1.modules ∧
      ∀ f ∈ ownedFiles db m, f ∈ (remove_module env db fs name).1.files := by
  have h1 : remove_module env db fs name = (db, fs1, false) := by
    simp [remove_module, hfind, hfail]
  refine ⟨h1, ?_, ?_⟩
  · rw [h1]
    exact List.mem_of_find?_eq_some hfind
  · intro f hf
    rw [h1]
    exact (List.mem_filter.mp hf).1

/-- Witness for C2: two owned files, deletion of the second faults after
the first was already deleted; both file rows and the module row remain. -/
theorem remove_preserves_inventory_on_failure_witness :
    findInstalled idb0 "mod" = some imod0 ∧
      remove_module envDel idb0 ["p1", "p2"] "mod" = (idb0, ["p2"], false) :=
  ⟨by decide,
    (remove_preserves_inventory_on_failure envDel idb0 ["p1", "p2"] "mod" imod0 ["p2"]
      (by decide) (by decide)).1⟩

/-! ## C9: missing files are treated as removable -/

/-- C9: when an installed module is found and no owned path that actually
exists on disk faults on deletion (in particular when some or all recorded
paths are missing from disk), `remove_module` skips the missing paths,
reports success, and deletes the `InstalledModule` row together with all
of its `InstalledFile` rows. -/
theorem remove_missing_files_success (env : Env) (db : InstalledDB) (fs : List String)
    (name : String) (m : InstalledModuleRow)
    (hfind : findInstalled db name = some m)
    (hok : ∀ p ∈ (ownedFiles db m).map (·.file_path), p ∈ fs → env.failDelete p = false) :
    (remove_module env db fs name).2.2 = true ∧
      (∀ m2 ∈ (remove_module env db fs name).1.modules, m2.name ≠ m.name) ∧
      (∀ f ∈ (remove_module env db fs name).1.files, f.module ≠ m.name) := by
  have hdel : (deleteFiles env ((ownedFiles db m).map (·.file_path)) fs).2 = true :=
    deleteFiles_ok env _ fs hok
  simp only [remove_module, hfind]
  rw [if_pos hdel]
  refine ⟨rfl, ?_, ?_⟩
  · intro m2 hm2
    have := (List.mem_filter.mp hm2).2
    simpa using this
  · intro f hf
    have := (List.mem_filter.mp hf).2
    simpa using this

/-- Witness for C9: one of the two owned paths is missing from disk;
removal still succeeds and clears both inventory tables. -/
theorem remove_missing_files_success_witness :
    findInstalled idb0 "Mod" = some imod0 ∧
      (remove_module env1 idb0 ["p1"] "Mod").2.2 = true :=
  ⟨by decide,
    (remove_missing_files_success env1 idb0 ["p1"] "Mod" imod0 (by decide) (by decide)).1⟩

/-! ## C6: upgradability is strict lexical dominance of the latest version -/

/-- What the `toUpgradeAll` entry function returns when it returns. -/
theorem toUpgradeAll_entry {cache : List CachedRow} {x : InstalledModuleRow} {y : String}
    (h : (match latest_cached cache x.name with
          | some latest =>
            if strLt x.update_date latest.update_date then some x.name else none
          | none => none) = some y) :
    y = x.name ∧ ∃ l, latest_cached cache x.name = some l ∧
      strLt x.update_date l.update_date = true := by
  split at h
  · rename_i l hl
    split at h
    · rename_i hlt
      exact ⟨(Option.some.inj h).symm, l, hl, hlt⟩
    · exact absurd h (by simp)
  · exact absurd h (by simp)

/-- What the `upgradableList` entry function returns when it returns. -/
theorem upgradableList_entry {cache : List CachedRow} {x : InstalledModuleRow}
    {u : UpgradableMod}
    (h : (match latest_cached cache x.name with
          | some latest =>
            if strLe latest.update_date x.update_date then none
            else some ⟨x.name, x.update_date, latest.update_date, x.description⟩
          | none => none) = some u) :
    u.name = x.name ∧ ∃ l, latest_cached cache x.name = some l ∧
      strLt x.update_date l.update_date = true := by
  split at h
  · rename_i l hl
    split at h
    · exact absurd h (by simp)
    · rename_i hle
      have hle' : strLe l.update_date x.update_date = false := by
        cases hh : strLe l.update_date x.update_date with
        | false => rfl
        | true => exact absurd hh hle
      refine ⟨?_, l, hl, strLe_false_iff.mp hle'⟩
      rw [← Option.some.inj h]
  · exact absurd h (by simp)

/-- C6: an installed module is selected by `upgrade --all`, and listed by
`list --upgradable`, exactly when the latest cached record for its
case-insensitive name has an `update_date` lexically (strictly) greater
than the installed one; and that latest record is a case-insensitive match
that no other case-insensitive match strictly exceeds.  Equal or
lexically-earlier values are never selected. -/
theorem upgradable_iff_lexically_greater (cache : List CachedRow)
    (installed : List InstalledModuleRow) (inst : InstalledModuleRow)
    (huniq : ∀ a ∈ installed, ∀ b ∈ installed, a.name = b.name → a = b)
    (hmem : inst ∈ installed) :
    ((inst.name ∈ toUpgradeAll cache installed) ↔
      ∃ l, latest_cached cache inst.name = some l ∧
        strLt inst.update_date l.update_date = true) ∧
    ((inst.name ∈ (upgradableList cache installed).map (·.name)) ↔
      ∃ l, latest_cached cache inst.name = some l ∧
        strLt inst.update_date l.update_date = true) ∧
    (∀ l, latest_cached cache inst.name = some l →
      l ∈ ciMatches cache inst.name ∧
        ∀ r ∈ ciMatches cache inst.name, strLt l.update_date r.update_date = false) := by
  refine ⟨⟨?_, ?_⟩, ⟨?_, ?_⟩, fun l hl => latest_cached_spec hl⟩
  · intro h
    obtain ⟨x, hx, hfx⟩ := List.mem_filterMap.mp h
    obtain ⟨hxy, l, hl, hlt⟩ := toUpgradeAll_entry hfx
    obtain rfl : x = inst := huniq x hx inst hmem hxy.symm
    exact ⟨l, hl, hlt⟩
  · rintro ⟨l, hl, hlt⟩
    refine List.mem_filterMap.mpr ⟨inst, hmem, ?_⟩
    simp [hl, hlt]
  · intro h
    obtain ⟨u, hu, huname⟩ := List.mem_map.mp h
    obtain ⟨x, hx, hfx⟩ := List.mem_filterMap.mp hu
    obtain ⟨hun, l, hl, hlt⟩ := upgradableList_entry hfx
    obtain rfl : x = inst := huniq x hx inst hmem (hun ▸ huname)
    exact ⟨l, hl, hlt⟩
  · rintro ⟨l, hl, hlt⟩
    have hle : strLe l.update_date inst.update_date = false := strLe_false_iff.mpr hlt
    refine List.mem_map.mpr ⟨⟨inst.name, inst.update_date, l.update_date, inst.description⟩,
      List.mem_filterMap.mpr ⟨inst, hmem, ?_⟩, rfl⟩
    simp [hl, hle]

/-- Witness for C6: three cached versions dated 2020-01-01, 2021-06-15,
2019-12-31 with the 2020 version installed; the module is upgradable. -/
theorem upgradable_iff_lexically_greater_witness :
    (∀ a ∈ inst6, ∀ b ∈ inst6, a.name = b.name → a = b) ∧ imod6 ∈ inst6 ∧
      ("m" ∈ toUpgradeAll cache6 inst6 ↔
        ∃ l, latest_cached cache6 "m" = some l ∧
          strLt "2020-01-01" l.update_date = true) :=
  ⟨by decide, by decide,
    (upgradable_iff_lexically_greater cache6 inst6 imod6 (by decide) (by decide)).1⟩

/-! ## C4: filename reconciliation -/

theorem strData_append (a b : String) : (a ++ b).data = a.data ++ b.data := rfl

theorem strAppend_assoc (a b c : String) : (a ++ b) ++ c = a ++ (b ++ c) := by
  cases a; cases b; cases c
  exact congrArg String.mk (List.append_assoc _ _ _)

theorem strEmpty_append (s : String) : "" ++ s = s := rfl

/-- `targetName` unfolded. -/
theorem targetName_eq (original clean : String) :
    targetName original clean =
      if reconstruct_sqlite_name original clean = original ∧ original.data.head? = some '.'
      then clean ++ original else reconstruct_sqlite_name original clean := rfl

/-- A member not carrying the database suffix is left unchanged by
`reconstruct_sqlite_name`. -/
theorem reconstruct_not_sqlite {original clean : String}
    (h : endsWithL (lowerL original.data) ".sqlite3".data = false) :
    reconstruct_sqlite_name original clean = original := by
  unfold reconstruct_sqlite_name
  rw [if_pos (by simp [h])]

/-- The first matching token determines the reconciled database name. -/
theorem reconstruct_token {original clean t : String}
    (h1 : endsWithL (lowerL original.data) ".sqlite3".data = true)
    (h2 : module_types.find?
        (fun tk => containsSub (lowerL original.data) ('.' :: (lowerL tk.data ++ ['.'])))
      = some t) :
    reconstruct_sqlite_name original clean = clean ++ "." ++ t ++ ".SQLite3" := by
  unfold reconstruct_sqlite_name
  rw [if_neg (by simp [h1])]
  simp [h2]

/-- With no matching token the reconciled name is the bare database name. -/
theorem reconstruct_no_token {original clean : String}
    (h1 : endsWithL (lowerL original.data) ".sqlite3".data = true)
    (h2 : module_types.find?
        (fun tk => containsSub (lowerL original.data) ('.' :: (lowerL tk.data ++ ['.'])))
      = none) :
    reconstruct_sqlite_name original clean = clean ++ ".SQLite3" := by
  unfold reconstruct_sqlite_name
  rw [if_neg (by simp [h1])]
  simp [h2]

/-- When the reconciled name is the module name followed by a suffix and
the module name does not start with a dot, the hidden-file rule cannot
change the result. -/
theorem targetName_reconstruct_result {member module_name : String} (suffix : String)
    (hmod : module_name.data.head? ≠ some '.')
    (hrec : reconstruct_sqlite_name member module_name = module_name ++ suffix) :
    targetName member module_name = module_name ++ suffix := by
  rw [targetName_eq, hrec]
  by_cases hcond : (module_name ++ suffix = member ∧ member.data.head? = some '.')
  · rw [if_pos hcond]
    obtain ⟨heq, hh⟩ := hcond
    cases hmn : module_name.data with
    | cons c cs =>
      exfalso
      have hdata : member.data = module_name.data ++ suffix.data := by
        rw [← heq]
        exact strData_append _ _
      rw [hmn] at hdata
      have hc : member.data.head? = some c := by rw [hdata]; rfl
      rw [hh] at hc
      apply hmod
      rw [hmn]
      rw [← Option.some.inj hc]
      rfl
    | nil =>
      have hmn' : module_name = "" := by
        cases module_name with
        | mk d =>
          have hd : d = [] := hmn
          rw [hd]
      subst hmn'
      rw [strEmpty_append, strEmpty_append]
      rw [strEmpty_append] at heq
      exact heq.symm
  · rw [if_neg hcond]

/-- C4 counterexample: the claim states that a database-suffixed member
with no recognized token becomes exactly `<module_name>.SQLite3`, but for
module name `".A"` and member `".A.SQLite3"` the code prefixes the module
name once more via the hidden-file rule, yielding `".A.A.SQLite3"`. -/
theorem reconciliation_claim_counterexample :
    targetName ".A.SQLite3" ".A" = ".A.A.SQLite3" ∧
      targetName ".A.SQLite3" ".A" ≠ ".A" ++ ".SQLite3" := by
  constructor
  · decide
  · decide

/-- C4 (amended): for every module name not itself starting with a dot,
filename reconciliation is the deterministic function of the member name
and the module name stated by the claim: a member whose lowercased name
does not end in `.sqlite3` is returned unchanged unless it starts with a
leading dot, in which case the module name is prefixed; a database-suffixed
member containing (case-insensitively) `.token.` for the first token of the
fixed ordered list becomes `<module_name>.<token>.SQLite3`; with no token
match it becomes `<module_name>.SQLite3`; in particular the three concrete
examples of the claim hold for module name `"ESV"`. -/
theorem reconciliation_deterministic_amended (module_name : String)
    (hmod : module_name.data.head? ≠ some '.') :
    (∀ member : String, endsWithL (lowerL member.data) ".sqlite3".data = false →
      targetName member module_name =
        (if member.data.head? = some '.' then module_name ++ member else member)) ∧
    (∀ member t : String, endsWithL (lowerL member.data) ".sqlite3".data = true →
      module_types.find?
          (fun tk => containsSub (lowerL member.data) ('.' :: (lowerL tk.data ++ ['.'])))
        = some t →
      targetName member module_name = module_name ++ "." ++ t ++ ".SQLite3") ∧
    (∀ member : String, endsWithL (lowerL member.data) ".sqlite3".data = true →
      module_types.find?
          (fun tk => containsSub (lowerL member.data) ('.' :: (lowerL tk.data ++ ['.'])))
        = none →
      targetName member module_name = module_name ++ ".SQLite3") ∧
    (targetName "Module.de.dictionary.sqlite3" "ESV" = "ESV.dictionary.SQLite3" ∧
      targetName "thedata.sqlite3" "ESV" = "ESV.SQLite3" ∧
      targetName ".hidden.txt" "ESV" = "ESV.hidden.txt") := by
  refine ⟨?_, ?_, ?_, by decide, by decide, by decide⟩
  · intro member h
    have hrec : reconstruct_sqlite_name member module_name = member := reconstruct_not_sqlite h
    rw [targetName_eq, hrec]
    by_cases hh : member.data.head? = some '.'
    · rw [if_pos ⟨rfl, hh⟩, if_pos hh]
    · rw [if_neg (fun hc => hh hc.2), if_neg hh]
  · intro member t h1 h2
    have hrec := @reconstruct_token member module_name t h1 h2
    rw [strAppend_assoc, strAppend_assoc] at hrec
    have := targetName_reconstruct_result ("." ++ (t ++ ".SQLite3")) hmod hrec
    rw [this, ← strAppend_assoc, ← strAppend_assoc]
  · intro member h1 h2
    have hrec := @reconstruct_no_token member module_name h1 h2
    exact targetName_reconstruct_result ".SQLite3" hmod hrec

/-- Witness for the amended C4 at module name "ESV". -/
theorem reconciliation_deterministic_amended_witness :
    ("ESV" : String).data.head? ≠ some '.' ∧
      targetName "Module.de.dictionary.sqlite3" "ESV" = "ESV.dictionary.SQLite3" :=
  ⟨by decide, (reconciliation_deterministic_amended "ESV" (by decide)).2.2.2.1⟩

/-! ## C8: archive-style parsing scenario and module-type derivation -/

/-- C8: parsing the one-alias, one-entry archive-style catalog of the spec
scenario yields exactly the record with name "kjv", resolved download URL
"http://x/kjv.bible.zip" and module type "bible"; and in general every
record produced from a zipped-registry entry carries the module type
computed by `moduleTypeOf` (percent-decode the final URL path segment,
strip `.zip`, split on `.`, last component when more than one, else
"bible") from its own resolved download URL. -/
theorem zipped_registry_scenario_and_type :
    parse_zipped_registry [("h1", "http://x/%s")] [kjvEntry] "reg" = [kjvRec] ∧
    ∀ (hosts : List (String × String)) (u : String) (e : ZipEntry) (r : CachedRow),
      r ∈ zipEntryRecs hosts u e → r.module_type = moduleTypeOf r.download_url := by
  refine ⟨by decide, ?_⟩
  intro hosts u e r hr
  unfold zipEntryRecs at hr
  split at hr
  · obtain ⟨tpl, _, hf⟩ := List.mem_filterMap.mp hr
    unfold zipTemplateRec at hf
    split at hf
    · split at hf
      · split at hf
        · rw [← Option.some.inj hf]
          rfl
        · exact absurd hf (by simp)
      · exact absurd hf (by simp)
    · exact absurd hf (by simp)
  · exact absurd hr (by simp)

/-- Witness for C8's general clause at the scenario record. -/
theorem zipped_registry_scenario_and_type_witness :
    kjvRec ∈ zipEntryRecs [("h1", "http://x/%s")] "reg" kjvEntry ∧
      kjvRec.module_type = moduleTypeOf kjvRec.download_url :=
  ⟨by decide,
    zipped_registry_scenario_and_type.2 [("h1", "http://x/%s")] "reg" kjvEntry kjvRec
      (by decide)⟩

/-! ## C7: parsers skip malformed entries -/

/-- A flat-JSON entry missing a required key contributes no record. -/
theorem extraRec_none (u : String) (m : ExtraEntry) (h : extraValid m = false) :
    extraRec u m = none := by
  unfold extraValid at h
  unfold extraRec
  cases hdu : m.download_url <;> cases hfn : m.file_name <;>
    cases hde : m.description <;> cases hud : m.update_date <;> simp_all

/-- A flat-JSON entry with all required keys contributes a record. -/
theorem extraRec_some (u : String) (m : ExtraEntry) (h : extraValid m = true) :
    (extraRec u m).isSome = true := by
  unfold extraValid at h
  unfold extraRec
  cases hdu : m.download_url <;> cases hfn : m.file_name <;>
    cases hde : m.description <;> cases hud : m.update_date <;> simp_all

/-- The flat-JSON parser is a homomorphism for concatenation: earlier
entries' records precede later entries' records. -/
theorem parse_extra_append (u : String) (xs ys : List ExtraEntry) :
    parse_extra_registry (xs ++ ys) u = parse_extra_registry xs u ++ parse_extra_registry ys u :=
  List.filterMap_append xs ys (extraRec u)

/-- The flat-JSON parser yields exactly one record per valid entry. -/
theorem parse_extra_length (u : String) :
    ∀ mods : List ExtraEntry,
      (parse_extra_registry mods u).length = (mods.filter extraValid).length
  | [] => rfl
  | m :: rest => by
    by_cases hv : extraValid m = true
    · obtain ⟨r, hr⟩ := Option.isSome_iff_exists.mp (extraRec_some u m hv)
      simp only [parse_extra_registry, List.filterMap_cons, hr, List.filter_cons, hv, if_true,
        List.length_cons]
      exact congrArg Nat.succ (parse_extra_length u rest)
    · have hv' : extraValid m = false := Bool.eq_false_iff.mpr hv
      simp only [parse_extra_registry, List.filterMap_cons, extraRec_none u m hv',
        List.filter_cons, hv', Bool.false_eq_true, if_false]
      exact parse_extra_length u rest

/-- A zipped-registry entry failing a required truthiness check contributes
no record at all. -/
theorem zipEntryRecs_invalid (hosts : List (String × String)) (u : String) (e : ZipEntry)
    (h : zipRequired e = false) : zipEntryRecs hosts u e = [] := by
  unfold zipEntryRecs
  by_cases h1 : truthyOpt e.abr = true ∧ e.url ≠ []
  · rw [if_pos h1]
    have hdu : ¬(truthyOpt e.des = true ∧ truthyOpt e.upd = true) := by
      intro hcon
      apply Bool.eq_false_iff.mp h
      have hne : e.url.isEmpty = false := by
        cases hu : e.url with
        | nil => exact absurd hu h1.2
        | cons a as => rfl
      simp [zipRequired, h1.1, hne, hcon.1, hcon.2]
    rw [List.filterMap_eq_nil_iff]
    intro tpl _
    unfold zipTemplateRec
    split
    · split
      · rw [if_neg hdu]
      · rfl
    · rfl
  · rw [if_neg h1]

/-- The zipped-registry parser is a homomorphism for concatenation. -/
theorem parse_zipped_append (hosts : List (String × String)) (u : String) :
    ∀ xs ys : List ZipEntry,
      parse_zipped_registry hosts (xs ++ ys) u =
        parse_zipped_registry hosts xs u ++ parse_zipped_registry hosts ys u
  | [], _ => rfl
  | x :: xs, ys => by
    show zipEntryRecs hosts u x ++ parse_zipped_registry hosts (xs ++ ys) u =
      (zipEntryRecs hosts u x ++ parse_zipped_registry hosts xs u) ++
        parse_zipped_registry hosts ys u
    rw [parse_zipped_append hosts u xs ys, List.append_assoc]

/-- When every entry passing the required-field checks yields exactly one
record, the zipped-registry parser yields exactly one record per such
entry. -/
theorem parse_zipped_length (hosts : List (String × String)) (u : String) :
    ∀ dls : List ZipEntry,
      (∀ e ∈ dls, zipRequired e = true → (zipEntryRecs hosts u e).length = 1) →
      (parse_zipped_registry hosts dls u).length = (dls.filter zipRequired).length
  | [], _ => rfl
  | e :: rest, h => by
    have hrest := parse_zipped_length hosts u rest
      (fun x hx => h x (List.mem_cons_of_mem _ hx))
    by_cases hv : zipRequired e = true
    · have h1 := h e (List.mem_cons_self _ _) hv
      simp only [parse_zipped_registry, List.length_append, List.filter_cons, hv,
        eq_self_iff_true, if_true, List.length_cons, h1, hrest]
      omega
    · have hv' : zipRequired e = false := Bool.eq_false_iff.mpr hv
      simp only [parse_zipped_registry, List.length_append, List.filter_cons, hv',
        Bool.false_eq_true, if_false, zipEntryRecs_invalid hosts u e hv',
        List.length_nil, hrest]
      omega

/-- C7 counterexample: a zipped-registry payload of ten entries, three of
them missing required fields, yields eight records, not seven — a valid
entry carrying two resolvable URL templates contributes one record per
template. -/
theorem parser_seven_records_counterexample :
    zcTen.length = 10 ∧ (zcTen.filter zipRequired).length = 7 ∧
      (parse_zipped_registry zcH zcTen "u").length = 8 :=
  ⟨by decide, by decide, by decide⟩

/-- C7 (amended): both parsers silently skip malformed individual entries
and keep the remainder in original relative order: a flat-JSON entry
missing a required key contributes no record and each valid one exactly its
record (10 entries with 3 invalid yield exactly 7 records); a
zipped-registry entry failing its required truthiness checks contributes no
record, parsing never aborts, records keep catalog order, and each valid
entry contributes one record per well-formed resolving URL template — so
the 7-record count holds there exactly when every valid entry yields one
record (e.g. a single resolvable URL template each). -/
theorem parser_skips_malformed_amended :
    (∀ (u : String) (m : ExtraEntry), extraValid m = false → extraRec u m = none) ∧
    (∀ (u : String) (m : ExtraEntry), extraValid m = true → (extraRec u m).isSome = true) ∧
    (∀ (u : String) (xs ys : List ExtraEntry),
      parse_extra_registry (xs ++ ys) u =
        parse_extra_registry xs u ++ parse_extra_registry ys u) ∧
    (∀ (u : String) (mods : List ExtraEntry),
      (parse_extra_registry mods u).length = (mods.filter extraValid).length) ∧
    (∀ (hosts : List (String × String)) (u : String) (e : ZipEntry),
      zipRequired e = false → zipEntryRecs hosts u e = []) ∧
    (∀ (hosts : List (String × String)) (u : String) (xs ys : List ZipEntry),
      parse_zipped_registry hosts (xs ++ ys) u =
        parse_zipped_registry hosts xs u ++ parse_zipped_registry hosts ys u) ∧
    (∀ (hosts : List (String × String)) (u : String) (dls : List ZipEntry),
      (∀ e ∈ dls, zipRequired e = true → (zipEntryRecs hosts u e).length = 1) →
      (parse_zipped_registry hosts dls u).length = (dls.filter zipRequired).length) :=
  ⟨extraRec_none, extraRec_some, parse_extra_append, parse_extra_length,
    zipEntryRecs_invalid, parse_zipped_append, parse_zipped_length⟩

/-- Witness for the amended C7: ten single-URL entries with three invalid
yield exactly seven records. -/
theorem parser_skips_malformed_amended_witness :
    (∀ e ∈ zcTenSingle, zipRequired e = true → (zipEntryRecs zcH "u" e).length = 1) ∧
      (parse_zipped_registry zcH zcTenSingle "u").length =
        (zcTenSingle.filter zipRequired).length :=
  ⟨by decide, parser_skips_malformed_amended.2.2.2.2.2.2 zcH "u" zcTenSingle (by decide)⟩

/-! ## C1: install writes the inventory atomically -/

/-- C1: for an install whose cached record resolves and whose archive is
obtainable, with the module not yet present in the inventory: if creating
any `InstalledFile` record faults after the `InstalledModule` record was
created inside the same transaction, the call ends in the rolled-back
exceptional state and the inventory contains neither the module row nor
any file row for that module; with no fault the call succeeds and the
module row together with all of its file rows exist in the inventory. -/
theorem install_atomic_inventory (env : Env) (cache : List CachedRow) (module_path : String)
    (db : InstalledDB) (fs : List String) (name : String) (version : Option String)
    (mod : CachedRow)
    (hres : resolveModule cache name version = some mod)
    (hdl : downloadAvailable env mod = true)
    (hnomod : ∀ m ∈ db.modules, m.name ≠ mod.name)
    (hnofile : ∀ f ∈ db.files, f.module ≠ mod.name) :
    ((∃ p ∈ extractedFiles env module_path mod fs, env.failFile p.1 = true) →
      (install_single_module env cache module_path db fs name version).2.2 = .exn ∧
      (install_single_module env cache module_path db fs name version).1 = db ∧
      (∀ m ∈ (install_single_module env cache module_path db fs name version).1.modules,
        m.name ≠ mod.name) ∧
      (∀ f ∈ (install_single_module env cache module_path db fs name version).1.files,
        f.module ≠ mod.name)) ∧
    ((∀ p ∈ extractedFiles env module_path mod fs, env.failFile p.1 = false) →
      (install_single_module env cache module_path db fs name version).2.2 = .ok ∧
      installedRowOf env mod ∈
        (install_single_module env cache module_path db fs name version).1.modules ∧
      ∀ p ∈ extractedFiles env module_path mod fs,
        (⟨mod.name, p.1, p.2⟩ : InstalledFileRow) ∈
          (install_single_module env cache module_path db fs name version).1.files) := by
  have hany : db.modules.any (fun m => m.name = (installedRowOf env mod).name) = false := by
    rw [Bool.eq_false_iff]
    intro hc
    obtain ⟨m, hm, hmn⟩ := List.any_eq_true.mp hc
    exact hnomod m hm (of_decide_eq_true hmn)
  constructor
  · rintro ⟨p, hp, hfp⟩
    have hcr : atomicCreate db (installedRowOf env mod)
        (extractLoop module_path (removeSuffix mod.name ".zip")
          (env.members (zipName mod)) fs).2 env.failFile = .error () := by
      unfold atomicCreate
      rw [if_neg (by simp [hany])]
      exact createFiles_err _ _ _ _ ⟨p, hp, hfp⟩
    have hI : install_single_module env cache module_path db fs name version =
        (db, (extractLoop module_path (removeSuffix mod.name ".zip")
          (env.members (zipName mod)) fs).1, .exn) := by
      simp only [install_single_module, hres, hdl, eq_self_iff_true, if_true, hcr]
    rw [hI]
    exact ⟨rfl, rfl, hnomod, hnofile⟩
  · intro hok
    have hcr : atomicCreate db (installedRowOf env mod)
        (extractLoop module_path (removeSuffix mod.name ".zip")
          (env.members (zipName mod)) fs).2 env.failFile =
        .ok { modules := db.modules ++ [installedRowOf env mod]
              files := db.files ++ (extractedFiles env module_path mod fs).map
                (fun p => ⟨(installedRowOf env mod).name, p.1, p.2⟩) } := by
      unfold atomicCreate
      rw [if_neg (by simp [hany])]
      exact createFiles_ok _ _ _ _ hok
    have hI : install_single_module env cache module_path db fs name version =
        ({ modules := db.modules ++ [installedRowOf env mod]
           files := db.files ++ (extractedFiles env module_path mod fs).map
             (fun p => ⟨(installedRowOf env mod).name, p.1, p.2⟩) },
         (extractLoop module_path (removeSuffix mod.name ".zip")
           (env.members (zipName mod)) fs).1, .ok) := by
      simp only [install_single_module, hres, hdl, eq_self_iff_true, if_true, hcr]
    rw [hI]
    refine ⟨rfl, ?_, ?_⟩
    · exact List.mem_append_right _ (List.mem_singleton.mpr rfl)
    · intro p hp
      exact List.mem_append_right _ (List.mem_map.mpr ⟨p, hp, rfl⟩)

/-- Witness for C1: a one-member archive whose file-row creation faults;
the inventory is left exactly as before the install. -/
theorem install_atomic_inventory_witness :
    resolveModule cache0 "mod" none = some mod0 ∧
      (install_single_module env0 cache0 "/mp" ⟨[], []⟩ [] "mod" none).2.2 = Outcome.exn ∧
      (install_single_module env0 cache0 "/mp" ⟨[], []⟩ [] "mod" none).1 = ⟨[], []⟩ :=
  ⟨by decide,
    (((install_atomic_inventory env0 cache0 "/mp" ⟨[], []⟩ [] "mod" none mod0
        (by decide) (by decide) (by decide) (by decide)).1 (by decide)).1),
    (((install_atomic_inventory env0 cache0 "/mp" ⟨[], []⟩ [] "mod" none mod0
        (by decide) (by decide) (by decide) (by decide)).1 (by decide)).2.1)⟩

/-! ## C3: upgrade is remove-then-install and a failed remove skips install -/

/-- C3: when the Remove step for a name fails, the inventory is unchanged
(so the module stays recorded at its prior installed version), the upgrade
step for that name ends without attempting Install (the step result is the
post-remove state with a plain failure, exactly the no-install branch), and
the loop continues with the remaining names of the batch. -/
theorem upgrade_remove_fail_skips_install (env : Env) (cache : List CachedRow)
    (module_path : String) (db : InstalledDB) (fs : List String) (n : String)
    (rest : List String) (db1 : InstalledDB) (fs1 : List String)
    (hfail : remove_module env db fs n = (db1, fs1, false)) :
    db1 = db ∧
    upgradeStep env cache module_path db fs n = (db, fs1, .err) ∧
    (∀ m ∈ db.modules, m ∈ (upgradeStep env cache module_path db fs n).1.modules) ∧
    upgradeLoop env cache module_path (n :: rest) db fs =
      ((upgradeLoop env cache module_path rest db fs1).1,
       (upgradeLoop env cache module_path rest db fs1).2.1,
       .err :: (upgradeLoop env cache module_path rest db fs1).2.2) := by
  have hdb : db1 = db := by
    have h2 := remove_module_fail_db env db fs n (by rw [hfail])
    rw [hfail] at h2
    exact h2
  have hstep : upgradeStep env cache module_path db fs n = (db, fs1, .err) := by
    simp [upgradeStep, hfail, hdb]
  refine ⟨hdb, hstep, ?_, ?_⟩
  · intro m hm
    rw [hstep]
    exact hm
  · simp only [upgradeLoop, hstep]

/-- Witness for C3: removing module "Mod" fails on a deletion fault; the
upgrade step leaves the inventory unchanged and does not install. -/
theorem upgrade_remove_fail_skips_install_witness :
    remove_module envDel idb0 ["p1", "p2"] "Mod" = (idb0, ["p2"], false) ∧
      upgradeStep envDel cache0 "/mp" idb0 ["p1", "p2"] "Mod" = (idb0, ["p2"], Outcome.err) :=
  ⟨by decide,
    (upgrade_remove_fail_skips_install envDel cache0 "/mp" idb0 ["p1", "p2"] "Mod" ["x"]
      idb0 ["p2"] (by decide)).2.1⟩

end MyBibleGet
